import Mathlib

set_option autoImplicit false

/-
Shallow embedding of caffe2/utils/proto_utils.cc.

The file under verification is glue code over the external protobuf
library.  The embedding models:

  * the `Argument` protobuf message with exactly the fields this file
    touches (name, f, i, s, floats, ints, strings).  Scalar fields are
    `Option` (proto2 optional fields: set or unset); repeated fields are
    lists.  The payload type of the protobuf `float` fields is an
    arbitrary type parameter `F`: the helpers only store float values,
    they never compute with them, so nothing about IEEE arithmetic is
    needed or assumed.
  * `OperatorDef` as its ordered sequence of arguments.
  * an external `MessageLite`, opaque to this layer, modeled by the
    byte string its `SerializeAsString` produces.
  * the file-I/O helpers as functions of the outcome of `open` (`none`
    when the fd is -1) and of the external protobuf parse/print/serialize
    calls, which are passed in as functions (they belong to the external
    library, not to this file).
  * `CAFFE_CHECK` / `CAFFE_LOG_FATAL` aborts as the `FnResult.fatal`
    constructor: a function that can abort returns `FnResult α` instead
    of `α`.
-/

namespace Caffe2

/-- Result of a C++ function that can hit a fatal (process-aborting)
check: either a normal return or a fatal diagnostic. -/
inductive FnResult (α : Type) where
  | ret (a : α)
  | fatal (msg : String)
deriving DecidableEq

/-- The `Argument` message, with the fields proto_utils.cc uses.
`F` is the carrier of the protobuf `float` fields. -/
structure Argument (F : Type) where
  name : Option String := none
  f : Option F := none
  i : Option Int := none
  s : Option String := none
  floats : List F := []
  ints : List Int := []
  strings : List String := []
deriving DecidableEq

/-- The `OperatorDef` message: an ordered sequence of arguments. -/
structure OperatorDef (F : Type) where
  arg : List (Argument F) := []
deriving DecidableEq

/-- The proto2 accessor `arg.name()`: the field value, or the empty
string when the field is unset. -/
def Argument.nameOrDefault {F : Type} (a : Argument F) : String :=
  a.name.getD ""

/-- An external protobuf message, opaque to this layer: the only thing
proto_utils.cc does with one is call `SerializeAsString`, so it is
modeled by that byte string. -/
structure MessageLite where
  serialized : String
deriving DecidableEq

/-- File content as a byte sequence. -/
abbrev Content := List Nat

/-! ## MakeArgument: scalar specializations

`CAFFE2_MAKE_SINGULAR_ARGUMENT(T, fieldname)` expands to: default
construct `arg`, `set_name(name)`, `set_fieldname(value)`, `return arg`. -/

/-- `MakeArgument<float>`: sets `name` and `f`. -/
def makeArgumentFloat {F : Type} (name : String) (value : F) : Argument F :=
  { name := some name, f := some value }

/-- `MakeArgument<int>`: sets `name` and `i`. -/
def makeArgumentInt {F : Type} (name : String) (value : Int) : Argument F :=
  { name := some name, i := some value }

/-- `MakeArgument<string>`: sets `name` and `s`. -/
def makeArgumentString {F : Type} (name : String) (value : String) : Argument F :=
  { name := some name, s := some value }

/-- `MakeArgument<MessageLite>`: sets `name` and stores
`value.SerializeAsString()` in `s`. -/
def makeArgumentMessage {F : Type} (name : String) (value : MessageLite) :
    Argument F :=
  { name := some name, s := some value.serialized }

/-! ## MakeArgument: repeated specializations

`CAFFE2_MAKE_REPEATED_ARGUMENT(T, fieldname)` expands to: default
construct `arg`, `set_name(name)`, then `add_fieldname(v)` for each `v`
of the vector in order -- and then the closing brace: the macro contains
no `return` statement, so control falls off the end of a value-returning
function (undefined behavior) and the constructed `arg` is never
returned.  Each specialization is therefore modeled by two definitions:
the local `arg` the body builds, and the function's returned value,
which is `none` because no return statement executes. -/

/-- The local `arg` built by the body of `MakeArgument<vector<float>>`. -/
def makeArgumentFloatsLocal {F : Type} (name : String) (value : List F) :
    Argument F :=
  value.foldl (fun arg v => { arg with floats := arg.floats ++ [v] })
    { name := some name }

/-- `MakeArgument<vector<float>>`: the body builds the local `arg` but
never returns it (the macro has no return statement). -/
def makeArgumentFloats {F : Type} (name : String) (value : List F) :
    Option (Argument F) :=
  let _ := makeArgumentFloatsLocal name value
  none

/-- The local `arg` built by the body of `MakeArgument<vector<int>>`. -/
def makeArgumentIntsLocal {F : Type} (name : String) (value : List Int) :
    Argument F :=
  value.foldl (fun arg v => { arg with ints := arg.ints ++ [v] })
    { name := some name }

/-- `MakeArgument<vector<int>>`: the body builds the local `arg` but
never returns it (the macro has no return statement). -/
def makeArgumentInts {F : Type} (name : String) (value : List Int) :
    Option (Argument F) :=
  let _ := makeArgumentIntsLocal (F := F) name value
  none

/-- The local `arg` built by the body of `MakeArgument<vector<string>>`. -/
def makeArgumentStringsLocal {F : Type} (name : String) (value : List String) :
    Argument F :=
  value.foldl (fun arg v => { arg with strings := arg.strings ++ [v] })
    { name := some name }

/-- `MakeArgument<vector<string>>`: the body builds the local `arg` but
never returns it (the macro has no return statement). -/
def makeArgumentStrings {F : Type} (name : String) (value : List String) :
    Option (Argument F) :=
  let _ := makeArgumentStringsLocal (F := F) name value
  none

/-! ## File I/O helpers

Each helper is modeled as a function of (a) the outcome of `open` --
`none` when `open` returned -1, `some content` otherwise -- and (b) the
external protobuf calls it makes, passed in as functions, since their
behavior belongs to the protobuf library, not to this file. -/

/-- Byte limits passed to `CodedInputStream::SetTotalBytesLimit`:
hard limit and warning threshold. -/
structure TotalBytesLimit where
  hard : Nat
  warn : Nat
deriving DecidableEq

/-- Full variant, line 99: `coded_input->SetTotalBytesLimit(1073741824,
536870912)`. -/
def fullTotalBytesLimit : TotalBytesLimit :=
  { hard := 1073741824, warn := 536870912 }

/-- Lite variant, line 55: `coded_stream.SetTotalBytesLimit(1024LL << 20,
512LL << 20)` (positive long-long constants, no overflow). -/
def liteTotalBytesLimit : TotalBytesLimit :=
  { hard := 1024 <<< 20, warn := 512 <<< 20 }

/-- `ReadProtoFromBinaryFile`, full-protobuf variant (lines 92-105).
`openRes` is the outcome of `open(filename, O_RDONLY)`; `CAFFE_CHECK_NE(fd,
-1)` makes a failed open fatal.  On success the bytes are parsed by
`proto->ParseFromCodedStream` under `fullTotalBytesLimit`; `parse` models
that external call, returning the success flag and the resulting state of
`*proto` (possibly partially populated on failure), and that pair is
returned. -/
def readProtoFromBinaryFileFull {PMsg : Type} (openRes : Option Content)
    (parse : TotalBytesLimit → Content → Bool × PMsg) :
    FnResult (Bool × PMsg) :=
  match openRes with
  | none => FnResult.fatal "File not found"
  | some content => FnResult.ret (parse fullTotalBytesLimit content)

/-- `ReadProtoFromBinaryFile`, lite variant (lines 48-57).  The function
performs no check of any kind: it builds a `CopyingInputStreamAdaptor`
over an `IfstreamInputStream` (whose `Read` returns -1 when the ifstream
is in a failed state, e.g. the file could not be opened), sets
`liteTotalBytesLimit`, and unconditionally returns whatever the external
`proto->ParseFromCodedStream` call reports.  The stream handed to the
external parse is modeled as `Option Content`: `none` when the file
could not be opened (an errored stream, which the coded stream cannot
distinguish from end-of-file), `some content` otherwise; `parse` returns
the external call's success flag and the resulting state of `*proto`. -/
def readProtoFromBinaryFileLite {PMsg : Type} (openRes : Option Content)
    (parse : TotalBytesLimit → Option Content → Bool × PMsg) :
    Bool × PMsg :=
  parse liteTotalBytesLimit openRes

/-- `WriteProtoToBinaryFile` (lines 107-118): `open(filename, O_WRONLY |
O_CREAT | O_TRUNC, 0644)`, then `CAFFE_CHECK_NE(fd, -1)` -- a failed open
is fatal -- then `CAFFE_CHECK(proto.SerializeToCodedStream(...))` -- a
failed serialization is fatal; otherwise normal return.  `serialize`
models the external serialization call's success on the stream built over
the given fd. -/
def writeProtoToBinaryFile (openRes : Option Unit)
    (serialize : Option Unit → Bool) : FnResult Unit :=
  match openRes with
  | none => FnResult.fatal "File cannot be created"
  | some _ =>
    if serialize openRes then FnResult.ret ()
    else FnResult.fatal "CHECK failed: SerializeToCodedStream"

/-- `WriteProtoToTextFile` (lines 84-90): `open(filename, O_WRONLY |
O_CREAT | O_TRUNC, 0644)`, then -- with NO check of fd against -1, unlike
`WriteProtoToBinaryFile` -- a `FileOutputStream` is built over fd and
`CAFFE_CHECK(TextFormat::Print(proto, output))` runs.  `print` models the
external `TextFormat::Print` call's return value as a function of the
open outcome; `FileOutputStream` buffers writes (failure on a bad fd
surfaces only when the buffer is flushed, after this check), so `print`
can return `true` even when `openRes` is `none`. -/
def writeProtoToTextFile (openRes : Option Unit)
    (print : Option Unit → Bool) : FnResult Unit :=
  if print openRes then FnResult.ret ()
  else FnResult.fatal "CHECK failed: TextFormat Print"

/-! ## Argument lookup -/

/-- The scan loop of `GetArgument` (lines 162-170): return the first
argument whose `name()` equals `name`; if the loop finishes,
`CAFFE_LOG_FATAL` fires (the dummy static returned afterwards is
unreachable). -/
def getArgumentLoop {F : Type} : List (Argument F) → String →
    FnResult (Argument F)
  | [], name => FnResult.fatal ("Argument named " ++ name ++ " does not exist.")
  | arg :: rest, name =>
    if arg.nameOrDefault = name then FnResult.ret arg
    else getArgumentLoop rest name

/-- `GetArgument(def, name)` (lines 161-171). -/
def getArgument {F : Type} (d : OperatorDef F) (name : String) :
    FnResult (Argument F) :=
  getArgumentLoop d.arg name

/-- The index scan of `GetMutableArgument` (lines 175-179): the index of
the first argument whose `name()` equals `name`, if any. -/
def findArgIdx {F : Type} : List (Argument F) → String → Option Nat
  | [], _ => none
  | arg :: rest, name =>
    if arg.nameOrDefault = name then some 0
    else (findArgIdx rest name).map (· + 1)

/-- `GetMutableArgument(name, create_if_missing, def)` (lines 173-188).
The returned `Argument*` is modeled as an index into the returned
`OperatorDef`'s argument sequence (`none` models `nullptr`): a mutation
through the pointer is a `List.set` at that index.  If an argument is
found its index is returned and `def` is unchanged; otherwise, when
`create_if_missing`, `add_arg()` appends a default `Argument`,
`set_name(name)` sets its name, and its index is returned; when not
`create_if_missing`, `nullptr` is returned and `def` is unchanged. -/
def getMutableArgument {F : Type} (name : String) (createIfMissing : Bool)
    (d : OperatorDef F) : Option Nat × OperatorDef F :=
  match findArgIdx d.arg name with
  | some i => (some i, d)
  | none =>
    if createIfMissing then
      (some d.arg.length, { arg := d.arg ++ [{ name := some name }] })
    else
      (none, d)

/-! ## Helper lemmas about the lookup scans -/

theorem findArgIdx_eq_none {F : Type} (l : List (Argument F)) (name : String)
    (h : ∀ a ∈ l, a.nameOrDefault ≠ name) : findArgIdx l name = none := by
  induction l with
  | nil => rfl
  | cons b rest ih =>
    have hb : b.nameOrDefault ≠ name := h b (List.mem_cons_self b rest)
    have hr := ih (fun a ha => h a (List.mem_cons_of_mem b ha))
    simp [findArgIdx, hb, hr]

theorem no_match_of_findArgIdx_eq_none {F : Type} (l : List (Argument F))
    (name : String) (h : findArgIdx l name = none) :
    ∀ a ∈ l, a.nameOrDefault ≠ name := by
  induction l with
  | nil => intro a ha; cases ha
  | cons b rest ih =>
    intro a ha
    by_cases hb : b.nameOrDefault = name
    · simp [findArgIdx, hb] at h
    · rcases List.mem_cons.mp ha with rfl | ha2
      · exact hb
      · rcases hr : findArgIdx rest name with _ | j
        · exact ih hr a ha2
        · rw [show findArgIdx (b :: rest) name
                = (findArgIdx rest name).map (· + 1) from by simp [findArgIdx, hb],
              hr] at h
          simp at h

theorem findArgIdx_spec {F : Type} (l : List (Argument F)) (name : String) :
    ∀ i, findArgIdx l name = some i →
      ∃ a, l[i]? = some a ∧ a.nameOrDefault = name
        ∧ getArgumentLoop l name = FnResult.ret a := by
  induction l with
  | nil => intro i h; simp [findArgIdx] at h
  | cons b rest ih =>
    intro i h
    by_cases hb : b.nameOrDefault = name
    · have hi : i = 0 := by
        simp [findArgIdx, hb] at h
        omega
      subst hi
      exact ⟨b, by simp, hb, by simp [getArgumentLoop, hb]⟩
    · rw [show findArgIdx (b :: rest) name
            = (findArgIdx rest name).map (· + 1) from by simp [findArgIdx, hb]] at h
      rcases hr : findArgIdx rest name with _ | j
      · rw [hr] at h; simp at h
      · rw [hr] at h
        simp at h
        obtain ⟨a, hg, hn, hl⟩ := ih j hr
        refine ⟨a, ?_, hn, ?_⟩
        · rw [← h]
          simpa using hg
        · simp [getArgumentLoop, hb, hl]

theorem getArgumentLoop_fatal {F : Type} (l : List (Argument F))
    (name : String) (h : ∀ a ∈ l, a.nameOrDefault ≠ name) :
    getArgumentLoop l name
      = FnResult.fatal ("Argument named " ++ name ++ " does not exist.") := by
  induction l with
  | nil => rfl
  | cons b rest ih =>
    have hb := h b (List.mem_cons_self b rest)
    simp [getArgumentLoop, hb, ih (fun a ha => h a (List.mem_cons_of_mem b ha))]

theorem getArgumentLoop_first {F : Type} (pre : List (Argument F))
    (a : Argument F) (post : List (Argument F)) (name : String)
    (ha : a.nameOrDefault = name) (hpre : ∀ b ∈ pre, b.nameOrDefault ≠ name) :
    getArgumentLoop (pre ++ a :: post) name = FnResult.ret a := by
  induction pre with
  | nil => simp [getArgumentLoop, ha]
  | cons b rest ih =>
    have hb := hpre b (List.mem_cons_self b rest)
    simp [getArgumentLoop, hb, ih (fun c hc => hpre c (List.mem_cons_of_mem b hc))]

theorem getElem_append_singleton {α : Type} (l : List α) (x : α) :
    (l ++ [x])[l.length]? = some x := by
  induction l with
  | nil => rfl
  | cons b t ih => simp [ih]

theorem set_append_length {α : Type} (l : List α) (x b : α) :
    (l ++ [x]).set l.length b = l ++ [b] := by
  induction l with
  | nil => rfl
  | cons c t ih =>
    show c :: (t ++ [x]).set t.length b = c :: (t ++ [b])
    rw [ih]

/-! ## Claim theorems -/

/-- C1 (code bug): each repeated-value MakeArgument specialization builds
a local Argument whose name is the input name and whose matching repeated
field holds exactly the input values in input order -- at name "xs" and
int values [1, 2, 3] the local value is exactly as the claim describes --
but the macro `CAFFE2_MAKE_REPEATED_ARGUMENT` contains no return
statement, so control falls off the end of the value-returning function
and the built Argument is never returned: the returned value is absent in
all three specializations, contradicting the claim that the function
returns the populated Argument. -/
theorem makeArgumentRepeated_builds_but_does_not_return :
    makeArgumentIntsLocal "xs" [1, 2, 3]
      = ({ name := some "xs", ints := [1, 2, 3] } : Argument Unit)
    ∧ (makeArgumentInts "xs" [1, 2, 3] : Option (Argument Unit)) = none
    ∧ (makeArgumentFloats "ws" [(), ()] : Option (Argument Unit)) = none
    ∧ (makeArgumentStrings "ss" ["p", "q"] : Option (Argument Unit)) = none :=
  ⟨rfl, rfl, rfl, rfl⟩

/-- C2 counterexample: the claim says the binary read returns a false
success flag rather than aborting when the file cannot be opened, for
every path; but in the full-protobuf variant a failed open trips
`CAFFE_CHECK_NE(fd, -1)`, a fatal abort, not a false return. -/
theorem readProtoFromBinaryFileFull_fatal_on_unopenable :
    @readProtoFromBinaryFileFull Unit none (fun _ _ => (true, ()))
      = FnResult.fatal "File not found"
    ∧ @readProtoFromBinaryFileFull Unit none (fun _ _ => (true, ()))
      ≠ FnResult.ret (false, ()) :=
  ⟨rfl, by decide⟩

/-- C2 amended: when the byte stream fails to parse, both variants
return the parse's false success flag with the message possibly
partially populated.  When the file cannot be opened, the full variant
aborts with a fatal file-not-found check instead of returning false; the
lite variant performs no open check at all and simply returns whatever
the external `ParseFromCodedStream` reports on the errored stream (which
the coded stream cannot distinguish from end-of-file, so for messages
without required fields the library reports true, not false). -/
theorem readProtoFromBinaryFile_false_on_failure_amended {PMsg : Type}
    (c : Content) (parseF : TotalBytesLimit → Content → Bool × PMsg)
    (parseL : TotalBytesLimit → Option Content → Bool × PMsg) (m : PMsg)
    (hFull : parseF fullTotalBytesLimit c = (false, m))
    (hLite : parseL liteTotalBytesLimit (some c) = (false, m)) :
    readProtoFromBinaryFileFull (some c) parseF = FnResult.ret (false, m)
    ∧ readProtoFromBinaryFileLite (some c) parseL = (false, m)
    ∧ readProtoFromBinaryFileFull none parseF = FnResult.fatal "File not found"
    ∧ ∀ openRes : Option Content,
        readProtoFromBinaryFileLite openRes parseL
          = parseL liteTotalBytesLimit openRes :=
  ⟨by simp [readProtoFromBinaryFileFull, hFull],
   by simp [readProtoFromBinaryFileLite, hLite],
   rfl, fun openRes => rfl⟩

/-- Witness for the amended C2 theorem at a concrete external parse
whose behavior mirrors the library's: false on the real byte stream
(a parse failure), true on the errored stream it cannot tell from
end-of-file. -/
theorem readProtoFromBinaryFile_false_on_failure_amended_witness :
    readProtoFromBinaryFileFull (some [7]) (fun _ _ => (false, false))
      = FnResult.ret (false, false)
    ∧ readProtoFromBinaryFileLite (some [7])
        (fun _ s => match s with
          | some _ => (false, false)
          | none => (true, true))
      = (false, false)
    ∧ readProtoFromBinaryFileFull none (fun _ _ => ((false : Bool), false))
      = FnResult.fatal "File not found"
    ∧ readProtoFromBinaryFileLite none
        (fun _ s => match s with
          | some _ => (false, false)
          | none => (true, true))
      = (true, true) := by
  have h := readProtoFromBinaryFile_false_on_failure_amended [7]
    (fun _ _ => (false, false))
    (fun _ s => match s with
      | some _ => (false, false)
      | none => (true, true))
    false rfl rfl
  exact ⟨h.1, h.2.1, h.2.2.1, h.2.2.2 none⟩

/-- C3 (code bug): the claim (and the spec's fatal-by-design policy) says
the text writer aborts fatally when the path cannot be opened for
writing, but `WriteProtoToTextFile` performs no `CAFFE_CHECK_NE(fd, -1)`
-- unlike `WriteProtoToBinaryFile`, whose parallel check is fatal.  Its
only fatal check guards `TextFormat::Print`'s return value, and since
`FileOutputStream` buffers writes, Print can report success on a bad fd
(a small message fits in the buffer; the write error surfaces only at
flush, after the check): in that case the call returns normally and the
message is silently discarded. -/
theorem writeProtoToTextFile_open_failure_not_fatal :
    writeProtoToTextFile none (fun _ => true) = FnResult.ret ()
    ∧ writeProtoToBinaryFile none (fun _ => true)
      = FnResult.fatal "File cannot be created" :=
  ⟨rfl, rfl⟩

/-- C4: when no argument of `def` is named `name`, `GetMutableArgument`
with `create_if_missing = false` returns the absent result (`nullptr`,
modeled as `none`), no fatal fires, and `def` is returned entirely
unmodified. -/
theorem getMutableArgument_absent_no_create {F : Type} (d : OperatorDef F)
    (name : String) (h : ∀ a ∈ d.arg, a.nameOrDefault ≠ name) :
    getMutableArgument name false d = (none, d) := by
  simp [getMutableArgument, findArgIdx_eq_none d.arg name h]

/-- Witness for C4 on a two-argument definition with no argument named
"c". -/
theorem getMutableArgument_absent_no_create_witness :
    getMutableArgument "c" false
        ({ arg := [{ name := some "a" }, { name := some "b" }] } :
          OperatorDef Unit)
      = (none, { arg := [{ name := some "a" }, { name := some "b" }] }) :=
  getMutableArgument_absent_no_create
    ({ arg := [{ name := some "a" }, { name := some "b" }] } : OperatorDef Unit)
    "c" (by decide)

/-- C5: when `def`'s argument sequence splits as `pre ++ a :: post` with
`a` named `name` and nothing in `pre` named `name` -- that is, `a` is the
first match in sequence order -- `GetArgument` returns exactly `a`, never
a later duplicate. -/
theorem getArgument_returns_first_match {F : Type} (d : OperatorDef F)
    (name : String) (pre post : List (Argument F)) (a : Argument F)
    (hd : d.arg = pre ++ a :: post) (ha : a.nameOrDefault = name)
    (hpre : ∀ b ∈ pre, b.nameOrDefault ≠ name) :
    getArgument d name = FnResult.ret a := by
  unfold getArgument
  rw [hd]
  exact getArgumentLoop_first pre a post name ha hpre

/-- Witness for C5 on the spec's example: names ["a", "b", "a"], where the
two arguments named "a" differ in their `i` field; the first one is
returned. -/
theorem getArgument_returns_first_match_witness :
    getArgument
        ({ arg := [{ name := some "a", i := some 1 },
                   { name := some "b" },
                   { name := some "a", i := some 2 }] } : OperatorDef Unit) "a"
      = FnResult.ret { name := some "a", i := some 1 } :=
  getArgument_returns_first_match
    ({ arg := [{ name := some "a", i := some 1 },
               { name := some "b" },
               { name := some "a", i := some 2 }] } : OperatorDef Unit)
    "a" []
    [{ name := some "b" }, { name := some "a", i := some 2 }]
    { name := some "a", i := some 1 } rfl rfl (by decide)

/-- C6: when no argument of `def` is named `name`, `GetArgument` takes
the fatal path (`CAFFE_LOG_FATAL` with the argument-missing diagnostic)
and yields no usable Argument: the result is the fatal outcome, not a
normal return. -/
theorem getArgument_missing_is_fatal {F : Type} (d : OperatorDef F)
    (name : String) (h : ∀ a ∈ d.arg, a.nameOrDefault ≠ name) :
    getArgument d name
      = FnResult.fatal ("Argument named " ++ name ++ " does not exist.") :=
  getArgumentLoop_fatal d.arg name h

/-- Witness for C6: looking up "missing" in a definition whose only
argument is named "a" is fatal. -/
theorem getArgument_missing_is_fatal_witness :
    getArgument ({ arg := [{ name := some "a" }] } : OperatorDef Unit)
        "missing"
      = FnResult.fatal ("Argument named " ++ "missing" ++ " does not exist.") :=
  getArgument_missing_is_fatal
    ({ arg := [{ name := some "a" }] } : OperatorDef Unit) "missing" (by decide)

/-- C7: when no argument of `def` is named `name`, `GetMutableArgument`
with `create_if_missing = true` appends exactly one new Argument with
only the name field set to the end of the sequence (the existing entries
form an unchanged prefix), returns the handle (index) of that appended
entry, and a mutation through the handle (a `set` at that index) lands on
the appended entry inside the resulting definition. -/
theorem getMutableArgument_creates_when_missing {F : Type} (d : OperatorDef F)
    (name : String) (h : ∀ a ∈ d.arg, a.nameOrDefault ≠ name) :
    getMutableArgument name true d
      = (some d.arg.length,
         { arg := d.arg ++ [{ name := some name, f := none, i := none,
                              s := none, floats := [], ints := [],
                              strings := [] }] })
    ∧ ∀ b : Argument F,
        ((getMutableArgument name true d).2.arg).set d.arg.length b
          = d.arg ++ [b] := by
  have h1 : getMutableArgument name true d
      = (some d.arg.length, { arg := d.arg ++ [{ name := some name }] }) := by
    simp [getMutableArgument, findArgIdx_eq_none d.arg name h]
  refine ⟨h1, fun b => ?_⟩
  rw [h1]
  exact set_append_length d.arg _ b

/-- Witness for C7: creating "c" in a one-argument definition appends a
new argument named "c" at index 1; setting index 1 afterwards replaces
exactly that entry. -/
theorem getMutableArgument_creates_when_missing_witness :
    getMutableArgument "c" true
        ({ arg := [{ name := some "a" }] } : OperatorDef Unit)
      = (some 1, { arg := [{ name := some "a" }, { name := some "c" }] })
    ∧ ((getMutableArgument "c" true
          ({ arg := [{ name := some "a" }] } : OperatorDef Unit)).2.arg).set 1
        { name := some "b", i := some 5 }
      = [{ name := some "a" }, { name := some "b", i := some 5 }] := by
  have h := getMutableArgument_creates_when_missing
    ({ arg := [{ name := some "a" }] } : OperatorDef Unit) "c" (by decide)
  exact ⟨h.1, h.2 { name := some "b", i := some 5 }⟩

/-- C8: each scalar MakeArgument specialization returns a fresh Argument
whose name is the input name and whose matching scalar field (`f`, `i`,
`s`) holds the input value, every other field unset; the MessageLite
specialization stores the value's serialized byte encoding in `s`. -/
theorem makeArgument_scalar_sets_matching_field {F : Type} (name : String)
    (fv : F) (iv : Int) (sv : String) (m : MessageLite) :
    makeArgumentFloat name fv
      = { name := some name, f := some fv, i := none, s := none,
          floats := [], ints := [], strings := [] }
    ∧ makeArgumentInt (F := F) name iv
      = { name := some name, f := none, i := some iv, s := none,
          floats := [], ints := [], strings := [] }
    ∧ makeArgumentString (F := F) name sv
      = { name := some name, f := none, i := none, s := some sv,
          floats := [], ints := [], strings := [] }
    ∧ makeArgumentMessage (F := F) name m
      = { name := some name, f := none, i := none, s := some m.serialized,
          floats := [], ints := [], strings := [] } :=
  ⟨rfl, rfl, rfl, rfl⟩

/-- C9: both variants of the binary read configure the decoded-message
byte ceiling with a hard limit of exactly 1 GiB (1073741824 bytes) and a
soft warning threshold of exactly 512 MiB (536870912 bytes): the full
variant's literals equal 1024 cubed and 512 times 1024 squared, the lite
variant's shifted expressions 1024 shifted left by 20 and 512 shifted
left by 20 equal the same two constants, and each read passes its
variant's limit to the parse. -/
theorem totalBytesLimit_one_GiB_hard_512_MiB_warn :
    fullTotalBytesLimit.hard = 1024 ^ 3
    ∧ fullTotalBytesLimit.warn = 512 * 1024 ^ 2
    ∧ liteTotalBytesLimit = fullTotalBytesLimit
    ∧ liteTotalBytesLimit.hard = 1073741824
    ∧ liteTotalBytesLimit.warn = 536870912
    ∧ ∀ (c : Content) (parseF : TotalBytesLimit → Content → Bool × Unit)
        (parseL : TotalBytesLimit → Option Content → Bool × Unit),
        readProtoFromBinaryFileFull (some c) parseF
            = FnResult.ret (parseF fullTotalBytesLimit c)
        ∧ readProtoFromBinaryFileLite (some c) parseL
            = parseL liteTotalBytesLimit (some c) :=
  ⟨by decide, by decide, by decide, by decide, by decide,
   fun c parseF parseL => ⟨rfl, rfl⟩⟩

/-- C10: with `create_if_missing = true`, `GetMutableArgument` never
returns the absent result: for every definition and name it returns the
index of an entry of the resulting definition whose name is `name` (the
first pre-existing match, or the freshly appended entry), and
`GetArgument` on the resulting definition returns that entry normally
rather than hitting the fatal argument-missing path. -/
theorem getMutableArgument_never_absent {F : Type} (d : OperatorDef F)
    (name : String) :
    ∃ idx a, (getMutableArgument name true d).1 = some idx
      ∧ ((getMutableArgument name true d).2.arg)[idx]? = some a
      ∧ a.nameOrDefault = name
      ∧ getArgument ((getMutableArgument name true d).2) name
          = FnResult.ret a := by
  rcases hf : findArgIdx d.arg name with _ | i
  · have hnm := no_match_of_findArgIdx_eq_none d.arg name hf
    refine ⟨d.arg.length, { name := some name }, ?_, ?_, rfl, ?_⟩
    · simp [getMutableArgument, hf]
    · simp [getMutableArgument, hf, getElem_append_singleton]
    · simp only [getMutableArgument, hf, if_pos]
      exact getArgumentLoop_first d.arg { name := some name } [] name rfl hnm
  · obtain ⟨a, hg, hn, hl⟩ := findArgIdx_spec d.arg name i hf
    exact ⟨i, a, by simp [getMutableArgument, hf], by simp [getMutableArgument, hf, hg],
      hn, by simp [getMutableArgument, getArgument, hf, hl]⟩

end Caffe2
